import Mathlib

/-!
Verification development for the minimalist data-pipeline analyzer
(`src/3oz5_construct_a_min.rs`).

The Rust source has three relevant functions:

* `data_ingest::ingest_csv` reads csv records in a loop and calls
  `result.unwrap()` on each per-record parse result, so the first
  malformed record aborts the whole ingestion.
* `data_process::filter_data(data, filter_column, filter_value)` is
  `data.into_iter().filter(|x| x.contains(filter_value)).cloned().collect()`:
  it keeps exactly the rows having some whole cell equal to
  `filter_value` and never reads `filter_column`.
* `data_process::aggregate_data(data, aggregation_column)` evaluates
  `data[aggregation_column].as_f64().unwrap()` on a single JSON value and
  wraps the scalar in an object under key "aggregated_value".

File reading and the csv/serde parsers are external collaborators; they are
modelled by giving the functions their outputs (per-record parse results,
a JSON tree) as inputs.  A Rust `unwrap()` panic is modelled as `none` /
`Except.error`.

The specification (spec.md) additionally describes a record/filter/fold
design (named fields, match semantics, an aggregation accumulator) that the
source does not contain; those definitions are modelled from the spec's
words, each marked `Modelled from the spec:`, and are compared against the
source's functions.
-/

set_option linter.unusedVariables false

/-- JSON values, as in serde_json's `Value` type (numbers collapsed to one
numeric constructor, modelled by `ℚ`; the claims use only small exact
numbers, for which `ℚ` agrees with `f64`). -/
inductive Json where
  | null
  | bool (b : Bool)
  | num (q : ℚ)
  | str (s : String)
  | arr (xs : List Json)
  | obj (kvs : List (String × Json))

/-- serde_json indexing `data[key]` with a string key: looks the key up in an
object and yields `Null` when the key is missing or the value is not an
object (serde_json's `Index for str` returns the static null in both
cases). -/
def Json.index : Json → String → Json
  | Json.obj kvs, k =>
    match kvs.find? (fun kv => kv.1 == k) with
    | some kv => kv.2
    | none => Json.null
  | _, _ => Json.null

/-- serde_json `Value::as_f64`: `Some` exactly on numbers. -/
def Json.as_f64 : Json → Option ℚ
  | Json.num q => some q
  | _ => none

/-- Embedding of `data_ingest::ingest_csv` (src lines 40-48).  The csv
`Reader` (an external collaborator) hands the loop one parse result per
record, header already consumed; the loop does `result.unwrap()` and pushes
the record.  The `unwrap` panic on a malformed record is modelled as
`Except.error`, which discards everything and aborts the source. -/
def ingest_csv : List (Except String (List String)) → Except String (List (List String))
  | [] => Except.ok []
  | result :: rest =>
    match result with
    | Except.error e => Except.error e
    | Except.ok record => (ingest_csv rest).map (fun rs => record :: rs)

/-- The predicate of `filter_data`'s closure `|x| x.contains(filter_value)`
(src line 59): `Vec::contains` tests whole-element equality, so a row passes
iff some whole cell equals the filter value. -/
def filter_pred (filter_value : String) (x : List String) : Bool :=
  x.contains filter_value

/-- Embedding of `data_process::filter_data` (src lines 58-60):
`data.into_iter().filter(|x| x.contains(filter_value)).cloned().collect()`.
The `filter_column` parameter is never read by the body. -/
def filter_data (data : List (List String)) (filter_column filter_value : String) :
    List (List String) :=
  data.filter (filter_pred filter_value)

/-- Embedding of `data_process::aggregate_data` (src lines 62-67):
`json!({"aggregated_value": data[aggregation_column].as_f64().unwrap().sum::<f64>()})`.
The `unwrap()` panic (column missing or non-numeric) is modelled as `none`.
The trailing `.sum::<f64>()` is applied to a single already-extracted `f64`
scalar; it is not well-typed Rust (spec.md §9 flags this line as erroneous)
and is modelled as the sum of that one scalar, i.e. the scalar itself. -/
def aggregate_data (data : Json) (aggregation_column : String) : Option Json :=
  match (data.index aggregation_column).as_f64 with
  | none => none
  | some v => some (Json.obj [("aggregated_value", Json.num v)])

/-- Modelled from the spec (§3): a field value is one of string, number,
absent. -/
inductive Value where
  | str (s : String)
  | num (q : ℚ)
  | absent

/-- Modelled from the spec (§3): a Record is an ordered sequence of named
fields. -/
abbrev Record := List (String × Value)

/-- Modelled from the spec: reading a named field of a Record; a name that
does not occur is absent. -/
def getField (r : Record) (f : String) : Value :=
  match r.find? (fun kv => kv.1 == f) with
  | some kv => kv.2
  | none => Value.absent

/-- Modelled from the spec (§3, §6): the schema is an ordered field-name
list; a csv row (as produced by `ingest_csv`) is read as a Record by pairing
the schema's names with the row's string cells. -/
def toRecord (schema : List String) (row : List String) : Record :=
  (schema.zip row).map (fun p => (p.1, Value.str p.2))

/-- Modelled from the spec (§3): match semantics of a FilterSpec, one of
exact-equality or substring-contains. -/
inductive MatchSem where
  | exact
  | containsSub

/-- Modelled from the spec (§3): a FilterSpec is a (field name, comparison
value, match semantics) triple. -/
structure FilterSpec where
  field : String
  value : String
  sem : MatchSem

/-- Modelled from the spec (§4.2): `FilterStage.apply` returns true iff the
named field's value satisfies the match semantics against the comparison
value; absent fields never match.  The spec states the match semantics for
textual values; a numeric field is modelled as not matching a string
comparison value. -/
def applySpec (r : Record) (s : FilterSpec) : Bool :=
  match getField r s.field with
  | Value.absent => false
  | Value.num _ => false
  | Value.str t =>
    match s.sem with
    | MatchSem.exact => t == s.value
    | MatchSem.containsSub => decide (s.value.data <:+: t.data)

/-- Modelled from the spec (§3): the reduction kind of an AggregationSpec. -/
inductive ReductionKind where
  | sum
  | count
  | average
  | min
  | max

/-- Modelled from the spec (§3): an AggregationSpec is a (field name,
reduction kind) pair. -/
structure AggregationSpec where
  field : String
  kind : ReductionKind

/-- Modelled from the spec (§7): the per-record, recoverable errors. -/
inductive FieldError where
  | missing
  | typeMismatch

/-- Modelled from the spec (§4.3): extracting the numeric target field of a
record — absent yields Missing, present but non-numeric yields
TypeMismatch. -/
def extractNum (r : Record) (f : String) : Except FieldError ℚ :=
  match getField r f with
  | Value.absent => Except.error FieldError.missing
  | Value.str _ => Except.error FieldError.typeMismatch
  | Value.num q => Except.ok q

/-- Modelled from the spec (§3): the AggregationAccumulator's running state —
count-seen, sum-of-values, min-seen, max-seen. -/
structure Accumulator where
  count : ℕ
  sum : ℚ
  minSeen : Option ℚ
  maxSeen : Option ℚ

/-- The accumulator before any record is folded. -/
def Accumulator.init : Accumulator :=
  { count := 0, sum := 0, minSeen := none, maxSeen := none }

/-- Modelled from the spec (§4.3): min-update — the first value initializes,
later values take the minimum with the value seen so far. -/
def mergeMin (o : Option ℚ) (v : ℚ) : Option ℚ :=
  some (match o with
    | none => v
    | some m => min m v)

/-- Modelled from the spec (§4.3): max-update, dual to `mergeMin`. -/
def mergeMax (o : Option ℚ) (v : ℚ) : Option ℚ :=
  some (match o with
    | none => v
    | some m => max m v)

/-- Modelled from the spec (§4.3): `AggregationStage.fold` — one record's
contribution to the accumulator, or a FieldError.  count increments without
reading the value; the numeric reductions extract the target field and
update only the state their reduction kind needs. -/
def fold (acc : Accumulator) (r : Record) (s : AggregationSpec) :
    Except FieldError Accumulator :=
  match s.kind with
  | ReductionKind.count => Except.ok { acc with count := acc.count + 1 }
  | ReductionKind.sum =>
    (extractNum r s.field).map (fun v => { acc with sum := acc.sum + v })
  | ReductionKind.average =>
    (extractNum r s.field).map
      (fun v => { acc with sum := acc.sum + v, count := acc.count + 1 })
  | ReductionKind.min =>
    (extractNum r s.field).map (fun v => { acc with minSeen := mergeMin acc.minSeen v })
  | ReductionKind.max =>
    (extractNum r s.field).map (fun v => { acc with maxSeen := mergeMax acc.maxSeen v })

/-- Modelled from the spec (§4.4): the run loop's aggregation side — records
are folded one by one; a record whose fold yields a FieldError is skipped
and the accumulator carried unchanged. -/
def foldRecords (s : AggregationSpec) (acc : Accumulator) (rs : List Record) :
    Accumulator :=
  rs.foldl
    (fun a r =>
      match fold a r s with
      | Except.ok a' => a'
      | Except.error _ => a)
    acc

/-- Modelled from the spec (§4.3): `finalize` — a pure read of the
accumulator per reduction kind; average with zero folded records yields the
defined "no data" value `none` instead of dividing. -/
def finalize (acc : Accumulator) (k : ReductionKind) : Option ℚ :=
  match k with
  | ReductionKind.sum => some acc.sum
  | ReductionKind.count => some (acc.count : ℚ)
  | ReductionKind.average =>
    if acc.count = 0 then none else some (acc.sum / (acc.count : ℚ))
  | ReductionKind.min => acc.minSeen
  | ReductionKind.max => acc.maxSeen

/-- The numeric values extracted from a record list at a field (records
where the field is not a number contribute nothing). -/
def nums (f : String) (rs : List Record) : List ℚ :=
  rs.filterMap (fun r =>
    match getField r f with
    | Value.num q => some q
    | _ => none)

/-- The reduction computed directly over the list of extracted values:
sum of the list, its length, its mean, its minimum, its maximum — with
`none` for the empty list where the reduction has no neutral element. -/
def directReduce (k : ReductionKind) (vs : List ℚ) : Option ℚ :=
  match k with
  | ReductionKind.sum => some vs.sum
  | ReductionKind.count => some (vs.length : ℚ)
  | ReductionKind.average =>
    if vs.length = 0 then none else some (vs.sum / (vs.length : ℚ))
  | ReductionKind.min =>
    match vs with
    | [] => none
    | v :: rest => some (rest.foldl min v)
  | ReductionKind.max =>
    match vs with
    | [] => none
    | v :: rest => some (rest.foldl max v)

/-- C2 counterexample: a malformed record that sits after a well-formed
record is not reported as a recoverable per-record error: the whole
ingestion aborts with the parse error and the following well-formed record
`["c"]` is never produced. -/
theorem ingest_csv_malformed_not_recovered_cex :
    ingest_csv [Except.ok ["a"], Except.error "malformed row", Except.ok ["c"]]
      = Except.error "malformed row" := rfl

/-- C2 (amended): `ingest_csv` aborts the whole source at the first
malformed record — for any well-formed prefix, one malformed record, and any
tail, the result is the parse error and no records are returned. -/
theorem ingest_csv_aborts_on_first_malformed (good : List (List String)) (e : String)
    (rest : List (Except String (List String))) :
    ingest_csv (good.map Except.ok ++ Except.error e :: rest) = Except.error e := by
  induction good with
  | nil => rfl
  | cons g gs ih =>
    simp only [List.map_cons, List.cons_append, ingest_csv, List.append_eq, ih]
    rfl

/-- C1 counterexample: the record has schema `["x"]` and row `["b"]`, so the
field `"y"` named by the FilterSpec is absent; the claim requires apply to
return false, but `filter_data` retains the row (its cell `"b"` equals the
comparison value), because it never consults the named field. -/
theorem filter_data_matches_absent_field_cex :
    filter_data [["b"]] "y" "b" = [["b"]] ∧
    getField (toRecord ["x"] ["b"]) "y" = Value.absent ∧
    applySpec (toRecord ["x"] ["b"]) ⟨"y", "b", MatchSem.exact⟩ = false :=
  ⟨rfl, rfl, rfl⟩

/-- C1 (amended): `filter_data` retains a row iff some whole cell of the row
equals the filter value exactly; the named field and the match-semantics
choice are ignored, and a row with no such cell is dropped without error. -/
theorem filter_data_retains_iff_cell_equals (data : List (List String))
    (col v : String) (row : List String) :
    row ∈ filter_data data col v ↔ row ∈ data ∧ v ∈ row := by
  simp [filter_data, filter_pred, List.mem_filter]

/-- C3 counterexample: the record (an empty JSON object) lacks the
aggregation field `"v"`, which the claim classifies as `FieldError::Missing`
with the error recorded and the run continuing; the code instead raises a
fault (`unwrap` panic, modelled `none`), aborting with nothing recorded. -/
theorem aggregate_data_missing_field_faults_cex :
    aggregate_data (Json.obj []) "v" = none := rfl

/-- C3 (amended): `aggregate_data` produces no result exactly when extracting
a number at the aggregation column fails (column absent or value
non-numeric); the failure is a fault (`unwrap` panic), not a recorded
per-record error, and no accumulator exists. -/
theorem aggregate_data_none_iff_extraction_fails (data : Json) (c : String) :
    aggregate_data data c = none ↔ (Json.index data c).as_f64 = none := by
  cases h : (Json.index data c).as_f64 <;> simp [aggregate_data, h]

/-- C4 counterexample: zero data at the aggregation column (an empty array
of values) makes the code fault (`as_f64` of an array is `None`, then
`unwrap` panics) instead of yielding a defined "no data" value. -/
theorem aggregate_data_zero_data_faults_cex :
    aggregate_data (Json.obj [("v", Json.arr [])]) "v" = none := rfl

/-- C4 (amended): the code implements no average reduction and no "no data"
result: whenever the aggregation column holds an array of values (in
particular the empty one, i.e. zero records), `aggregate_data` faults. -/
theorem aggregate_data_faults_on_array_column (c : String) (vs : List Json) :
    aggregate_data (Json.obj [(c, Json.arr vs)]) c = none := by
  simp [aggregate_data, Json.index, Json.as_f64]

/-- C5 counterexample: the filter names the field `"z"`, which is absent
from the data, yet no ConfigurationError is returned before processing:
`filter_data` processes and even retains the record, and the aggregation on
a missing column is attempted and faults instead of being rejected up
front. -/
theorem no_configuration_validation_cex :
    filter_data [["a", "1"]] "z" "a" = [["a", "1"]] ∧
    aggregate_data (Json.obj [("a", Json.num 2)]) "z" = none :=
  ⟨rfl, rfl⟩

/-- C5 (amended): the code performs no schema validation before the run:
a filter column absent from the data is silently ignored (the records are
still processed), and an aggregation column absent from the JSON object
causes a fault during aggregation, not a ConfigurationError before it. -/
theorem aggregate_data_faults_on_field_outside_schema (kvs : List (String × Json))
    (c : String) (h : ∀ kv ∈ kvs, kv.1 ≠ c) :
    aggregate_data (Json.obj kvs) c = none := by
  have hfind : kvs.find? (fun kv => kv.1 == c) = none := by
    rw [List.find?_eq_none]
    intro kv hkv
    simpa using h kv hkv
  simp [aggregate_data, Json.index, hfind, Json.as_f64]

/-- Witness for C5's amended theorem at a concrete object and column. -/
theorem aggregate_data_faults_on_field_outside_schema_witness :
    (∀ kv ∈ [("w", Json.num 3)], kv.1 ≠ "z") ∧
    aggregate_data (Json.obj [("w", Json.num 3)]) "z" = none :=
  ⟨by decide, aggregate_data_faults_on_field_outside_schema _ _ (by decide)⟩

/-- C7: the number of records output by `filter_data` — the
filtered-record-count of the run — equals the number of input records on
which the filter's predicate returns true. -/
theorem filter_data_length_eq_countP (data : List (List String)) (col v : String) :
    (filter_data data col v).length = data.countP (filter_pred v) := by
  simp [filter_data, List.countP_eq_length_filter]

/-- C8: evaluating the code on the spec's end-to-end example.  The filter
retains 2 of the 3 rows (rows whose cell equals "a"), matching the claimed
filtered-record-count; but the code never sums the records' `v` values: its
aggregation reads a single scalar from a JSON document, and on the example's
value column (an array holding 1, 2, 3) it faults instead of producing 4,
and no error log exists at all. -/
theorem end_to_end_example_code_evaluation :
    filter_data [["a", "1"], ["b", "2"], ["a", "3"]] "x" "a"
      = [["a", "1"], ["a", "3"]] ∧
    aggregate_data (Json.obj [("v", Json.arr [Json.num 1, Json.num 2, Json.num 3])]) "v"
      = none :=
  ⟨rfl, rfl⟩

/-- C10: `filter_data` is completely independent of its `filter_column`
argument, and it retains exactly the rows containing some whole cell equal
to the filter value, in their original order. -/
theorem filter_data_independent_of_column (data : List (List String))
    (c₁ c₂ v : String) :
    filter_data data c₁ v = filter_data data c₂ v ∧
    filter_data data c₁ v = data.filter (fun row => row.contains v) :=
  ⟨rfl, rfl⟩

theorem nums_cons_num (f : String) (r : Record) (rs : List Record) (q : ℚ)
    (hq : getField r f = Value.num q) :
    nums f (r :: rs) = q :: nums f rs := by
  simp [nums, List.filterMap_cons, hq]

theorem nums_length_eq (f : String) (rs : List Record)
    (h : ∀ r ∈ rs, ∃ q, getField r f = Value.num q) :
    (nums f rs).length = rs.length := by
  induction rs with
  | nil => rfl
  | cons r rs ih =>
    obtain ⟨q, hq⟩ := h r (List.mem_cons_self r rs)
    rw [nums_cons_num f r rs q hq, List.length_cons, List.length_cons,
      ih (fun x hx => h x (List.mem_cons_of_mem r hx))]

theorem foldRecords_sum_eq (f : String) (acc : Accumulator) (rs : List Record)
    (h : ∀ r ∈ rs, ∃ q, getField r f = Value.num q) :
    (foldRecords ⟨f, ReductionKind.sum⟩ acc rs).sum = acc.sum + (nums f rs).sum := by
  induction rs generalizing acc with
  | nil => simp [foldRecords, nums]
  | cons r rs ih =>
    obtain ⟨q, hq⟩ := h r (List.mem_cons_self r rs)
    have hrest : ∀ x ∈ rs, ∃ q, getField x f = Value.num q :=
      fun x hx => h x (List.mem_cons_of_mem r hx)
    have hstep : foldRecords ⟨f, ReductionKind.sum⟩ acc (r :: rs)
        = foldRecords ⟨f, ReductionKind.sum⟩ { acc with sum := acc.sum + q } rs := by
      simp [foldRecords, fold, extractNum, hq, Except.map]
    rw [hstep, ih _ hrest, nums_cons_num f r rs q hq, List.sum_cons, add_assoc]

theorem foldRecords_count_eq (f : String) (acc : Accumulator) (rs : List Record) :
    (foldRecords ⟨f, ReductionKind.count⟩ acc rs).count = acc.count + rs.length := by
  induction rs generalizing acc with
  | nil => simp [foldRecords]
  | cons r rs ih =>
    have hstep : foldRecords ⟨f, ReductionKind.count⟩ acc (r :: rs)
        = foldRecords ⟨f, ReductionKind.count⟩ { acc with count := acc.count + 1 } rs := by
      simp [foldRecords, fold]
    rw [hstep, ih]
    simp [List.length_cons]
    omega

theorem foldRecords_average_state (f : String) (acc : Accumulator) (rs : List Record)
    (h : ∀ r ∈ rs, ∃ q, getField r f = Value.num q) :
    (foldRecords ⟨f, ReductionKind.average⟩ acc rs).sum = acc.sum + (nums f rs).sum ∧
    (foldRecords ⟨f, ReductionKind.average⟩ acc rs).count = acc.count + rs.length := by
  induction rs generalizing acc with
  | nil => simp [foldRecords, nums]
  | cons r rs ih =>
    obtain ⟨q, hq⟩ := h r (List.mem_cons_self r rs)
    have hrest : ∀ x ∈ rs, ∃ q, getField x f = Value.num q :=
      fun x hx => h x (List.mem_cons_of_mem r hx)
    have hstep : foldRecords ⟨f, ReductionKind.average⟩ acc (r :: rs)
        = foldRecords ⟨f, ReductionKind.average⟩
            { acc with sum := acc.sum + q, count := acc.count + 1 } rs := by
      simp [foldRecords, fold, extractNum, hq, Except.map]
    obtain ⟨ihs, ihc⟩ := ih { acc with sum := acc.sum + q, count := acc.count + 1 } hrest
    constructor
    · rw [hstep, ihs, nums_cons_num f r rs q hq, List.sum_cons]
      simp [add_assoc]
    · rw [hstep, ihc, List.length_cons]
      simp
      omega

theorem foldRecords_min_state (f : String) (acc : Accumulator) (rs : List Record)
    (h : ∀ r ∈ rs, ∃ q, getField r f = Value.num q) :
    (foldRecords ⟨f, ReductionKind.min⟩ acc rs).minSeen
      = (nums f rs).foldl mergeMin acc.minSeen := by
  induction rs generalizing acc with
  | nil => simp [foldRecords, nums]
  | cons r rs ih =>
    obtain ⟨q, hq⟩ := h r (List.mem_cons_self r rs)
    have hrest : ∀ x ∈ rs, ∃ q, getField x f = Value.num q :=
      fun x hx => h x (List.mem_cons_of_mem r hx)
    have hstep : foldRecords ⟨f, ReductionKind.min⟩ acc (r :: rs)
        = foldRecords ⟨f, ReductionKind.min⟩
            { acc with minSeen := mergeMin acc.minSeen q } rs := by
      simp [foldRecords, fold, extractNum, hq, Except.map]
    rw [hstep, ih _ hrest, nums_cons_num f r rs q hq, List.foldl_cons]

theorem foldRecords_max_state (f : String) (acc : Accumulator) (rs : List Record)
    (h : ∀ r ∈ rs, ∃ q, getField r f = Value.num q) :
    (foldRecords ⟨f, ReductionKind.max⟩ acc rs).maxSeen
      = (nums f rs).foldl mergeMax acc.maxSeen := by
  induction rs generalizing acc with
  | nil => simp [foldRecords, nums]
  | cons r rs ih =>
    obtain ⟨q, hq⟩ := h r (List.mem_cons_self r rs)
    have hrest : ∀ x ∈ rs, ∃ q, getField x f = Value.num q :=
      fun x hx => h x (List.mem_cons_of_mem r hx)
    have hstep : foldRecords ⟨f, ReductionKind.max⟩ acc (r :: rs)
        = foldRecords ⟨f, ReductionKind.max⟩
            { acc with maxSeen := mergeMax acc.maxSeen q } rs := by
      simp [foldRecords, fold, extractNum, hq, Except.map]
    rw [hstep, ih _ hrest, nums_cons_num f r rs q hq, List.foldl_cons]

theorem foldl_mergeMin_some (vs : List ℚ) (v : ℚ) :
    vs.foldl mergeMin (some v) = some (vs.foldl min v) := by
  induction vs generalizing v with
  | nil => rfl
  | cons a vs ih => simp [List.foldl_cons, mergeMin, ih]

theorem foldl_mergeMax_some (vs : List ℚ) (v : ℚ) :
    vs.foldl mergeMax (some v) = some (vs.foldl max v) := by
  induction vs generalizing v with
  | nil => rfl
  | cons a vs ih => simp [List.foldl_cons, mergeMax, ih]

theorem directReduce_min_foldl (vs : List ℚ) :
    directReduce ReductionKind.min vs = vs.foldl mergeMin none := by
  cases vs with
  | nil => rfl
  | cons v rest =>
    simp [directReduce, List.foldl_cons, mergeMin, foldl_mergeMin_some]

theorem directReduce_max_foldl (vs : List ℚ) :
    directReduce ReductionKind.max vs = vs.foldl mergeMax none := by
  cases vs with
  | nil => rfl
  | cons v rest =>
    simp [directReduce, List.foldl_cons, mergeMax, foldl_mergeMax_some]

instance : RightCommutative mergeMin :=
  ⟨fun o a b => by cases o <;> simp [mergeMin, min_comm, min_assoc, min_left_comm]⟩

instance : RightCommutative mergeMax :=
  ⟨fun o a b => by cases o <;> simp [mergeMax, max_comm, max_assoc, max_left_comm]⟩

theorem finalize_foldRecords (f : String) (rs : List Record)
    (h : ∀ r ∈ rs, ∃ q, getField r f = Value.num q) (k : ReductionKind) :
    finalize (foldRecords ⟨f, k⟩ Accumulator.init rs) k = directReduce k (nums f rs) := by
  cases k with
  | sum =>
    simp only [finalize, directReduce, foldRecords_sum_eq f Accumulator.init rs h]
    simp [Accumulator.init]
  | count =>
    simp only [finalize, directReduce, foldRecords_count_eq f Accumulator.init rs,
      nums_length_eq f rs h]
    simp [Accumulator.init]
  | average =>
    obtain ⟨hs, hc⟩ := foldRecords_average_state f Accumulator.init rs h
    simp only [finalize, directReduce, hs, hc, nums_length_eq f rs h]
    simp [Accumulator.init]
    rw [Nat.zero_add]
  | min =>
    rw [finalize, foldRecords_min_state f Accumulator.init rs h,
      directReduce_min_foldl]
    rfl
  | max =>
    rw [finalize, foldRecords_max_state f Accumulator.init rs h,
      directReduce_max_foldl]
    rfl

/-- C6: for a finite record sequence whose aggregation target field is
always present and numeric, folding the records one by one and then reading
the accumulator yields exactly the reduction (sum, count, average, min, max)
computed directly over the list of extracted values; and for every
permutation of the sequence, the folded result of sum, count, min and max is
unchanged. -/
theorem fold_agrees_with_direct_reduction (f : String) (rs rs' : List Record)
    (h : ∀ r ∈ rs, ∃ q, getField r f = Value.num q) (hp : rs.Perm rs') :
    (∀ k, finalize (foldRecords ⟨f, k⟩ Accumulator.init rs) k
      = directReduce k (nums f rs)) ∧
    (∀ k, k ≠ ReductionKind.average →
      finalize (foldRecords ⟨f, k⟩ Accumulator.init rs') k
        = finalize (foldRecords ⟨f, k⟩ Accumulator.init rs) k) := by
  have h' : ∀ r ∈ rs', ∃ q, getField r f = Value.num q :=
    fun r hr => h r (hp.mem_iff.mpr hr)
  have hperm : (nums f rs).Perm (nums f rs') := by
    unfold nums
    exact hp.filterMap _
  refine ⟨fun k => finalize_foldRecords f rs h k, fun k hk => ?_⟩
  rw [finalize_foldRecords f rs h k, finalize_foldRecords f rs' h' k]
  cases k with
  | sum => simp [directReduce, hperm.sum_eq]
  | count => simp [directReduce, hperm.length_eq]
  | average => exact absurd rfl hk
  | min => rw [directReduce_min_foldl, directReduce_min_foldl, hperm.foldl_eq none]
  | max => rw [directReduce_max_foldl, directReduce_max_foldl, hperm.foldl_eq none]

/-- Witness for C6 at two concrete one-field records and their
transposition. -/
theorem fold_agrees_with_direct_reduction_witness :
    (∀ r ∈ ([[("v", Value.num 1)], [("v", Value.num 2)]] : List Record),
      ∃ q, getField r "v" = Value.num q) ∧
    ([[("v", Value.num 1)], [("v", Value.num 2)]] : List Record).Perm
      [[("v", Value.num 2)], [("v", Value.num 1)]] ∧
    ((∀ k, finalize (foldRecords ⟨"v", k⟩ Accumulator.init
          [[("v", Value.num 1)], [("v", Value.num 2)]]) k
        = directReduce k (nums "v" [[("v", Value.num 1)], [("v", Value.num 2)]])) ∧
     (∀ k, k ≠ ReductionKind.average →
      finalize (foldRecords ⟨"v", k⟩ Accumulator.init
          [[("v", Value.num 2)], [("v", Value.num 1)]]) k
        = finalize (foldRecords ⟨"v", k⟩ Accumulator.init
          [[("v", Value.num 1)], [("v", Value.num 2)]]) k)) := by
  have h : ∀ r ∈ ([[("v", Value.num 1)], [("v", Value.num 2)]] : List Record),
      ∃ q, getField r "v" = Value.num q := by
    intro r hr
    rcases List.mem_cons.mp hr with h1 | h1
    · exact ⟨1, by rw [h1]; rfl⟩
    · rcases List.mem_cons.mp h1 with h2 | h2
      · exact ⟨2, by rw [h2]; rfl⟩
      · exact (List.not_mem_nil r h2).elim
  have hp : ([[("v", Value.num 1)], [("v", Value.num 2)]] : List Record).Perm
      [[("v", Value.num 2)], [("v", Value.num 1)]] :=
    List.Perm.swap _ _ _
  exact ⟨h, hp, fold_agrees_with_direct_reduction "v" _ _ h hp⟩
